import Mathlib

/-!
Verification development for the mariner workflow engine and its wftool packer.

The Go sources are shallowly embedded: pure fragments become Lean functions,
k8s API results and concurrently-published task outputs become explicit
oracles (functions of a poll counter), panics become `Except.error`, and the
bounded polling loops of the scheduler become fuel-indexed recursions where
`none` means the loop is still waiting when the fuel runs out.
-/

deriving instance DecidableEq for Except

namespace Mariner

/-- Runtime value bound to a workflow parameter.  Go stores these as
`interface{}` (cwl.Parameters is map[string]interface{}); `null` is the Go
nil interface, the zero value produced by reading a missing map key. -/
inductive Value where
  | null : Value
  | str (s : String) : Value
  | int (n : Int) : Value
deriving DecidableEq

/-- A Go `map[string]A`, embedded as an association list.  `mset` overwrites
in place when the key exists (Go map assignment), else appends. -/
def mget {A : Type} (m : List (String × A)) (k : String) : Option A :=
  (m.find? (fun p => p.1 == k)).map (fun p => p.2)

def mset {A : Type} (m : List (String × A)) (k : String) (v : A) :
    List (String × A) :=
  match m with
  | [] => [(k, v)]
  | p :: rest => if p.1 == k then (k, v) :: rest else p :: mset rest k v

/-- `cwl.Parameters`: map from fully-qualified parameter id to bound value. -/
abbrev Params := List (String × Value)

theorem find?_cons_false {A : Type} (p : A → Bool) (a : A) (l : List A)
    (h : p a = false) : (a :: l).find? p = l.find? p := by
  simp [List.find?, h]

theorem mget_mset_self {A : Type} (m : List (String × A)) (k : String) (v : A) :
    mget (mset m k v) k = some v := by
  induction m with
  | nil => simp [mget, mset, List.find?]
  | cons hd tl ih =>
    by_cases hk : hd.1 == k
    · simp [mget, mset, hk, List.find?]
    · have hkf : (hd.1 == k) = false := eq_false_of_ne_true hk
      simp only [mset]
      rw [if_neg hk]
      unfold mget
      rw [find?_cons_false (fun p => p.1 == k) hd (mset tl k v) hkf]
      exact ih

theorem mget_mset_ne {A : Type} (m : List (String × A)) (k k' : String) (v : A)
    (h : k ≠ k') : mget (mset m k' v) k = mget m k := by
  induction m with
  | nil =>
    simp only [mset, mget, List.find?]
    have : ¬ (k' == k) := by
      simp only [beq_iff_eq]
      exact fun hc => h hc.symm
    simp [this]
  | cons hd tl ih =>
    by_cases hk' : hd.1 == k'
    · have hdk : ¬ (hd.1 == k) := by
        simp only [beq_iff_eq] at hk' ⊢
        exact fun hc => h (hc.symm.trans hk')
      have hne : ¬ (k' == k) := by
        simp only [beq_iff_eq]
        exact fun hc => h hc.symm
      simp [mset, mget, hk', List.find?, hdk, hne]
    · simp only [mset]
      rw [if_neg hk']
      by_cases hk : hd.1 == k
      · simp [mget, List.find?, hk]
      · have hkf : (hd.1 == k) = false := eq_false_of_ne_true hk
        unfold mget
        rw [find?_cons_false (fun p => p.1 == k) hd (mset tl k' v) hkf,
          find?_cons_false (fun p => p.1 == k) hd tl hkf]
        exact ih

/-- A workflow step input binding (`cwl.StepInput`): `ID` and `Source`. -/
structure StepInput where
  id : String
  source : List String
deriving DecidableEq

/-- A workflow step output declaration (`cwl.StepOutput`): its `ID`. -/
structure StepOutput where
  id : String
deriving DecidableEq

/-- A workflow step (`cwl.Step`): `ID`, `Run.Value`, `In`, `Out`, `Scatter`. -/
structure Step where
  id : String
  runValue : String
  stepIn : List StepInput
  stepOut : List StepOutput
  scatter : List String
deriving DecidableEq

/-- Go `strings.HasPrefix`, on the character sequence of the strings. -/
def goHasPrefix (s pre : String) : Bool :=
  pre.data.isPrefixOf s.data

/-- Go `strings.TrimPrefix`: drop `pre` from the front of `s` when it is a
prefix, else return `s` unchanged. -/
def trimPrefixStr (s pre : String) : String :=
  if goHasPrefix s pre then ⟨s.data.drop pre.data.length⟩ else s

/-- Embeds `step2taskID` (jobs.go): `step.Run.Value + strings.TrimPrefix(stepVarID, step.ID)`. -/
def step2taskID (step : Step) (stepVarID : String) : String :=
  step.runValue ++ trimPrefixStr stepVarID step.id

/-- Embeds `(task *Task) setupOutputMap` (jobs.go): for each step of the
workflow, for each of its `Out` entries, record `outputID -> stepID`. -/
def setupOutputMap (steps : List Step) : List (String × String) :=
  steps.foldl
    (fun m step => step.stepOut.foldl (fun m out => mset m out.id step.id) m) []

/-- The slice of a sibling task that `runStep` reads: `Root.ID` (bound by
`resolveGraph` to the process referenced by the step) and `originalStep`. -/
structure ChildInfo where
  rootID : String
  originalStep : Step
deriving DecidableEq

/-- The slice of the parent workflow `Task` read by a child activity in
`runStep`: `Root.ID`, `Parameters`, `outputIDMap`, `Children`. -/
structure ParentCtx where
  rootID : String
  parameters : Params
  outputIDMap : List (String × String)
  children : List (String × ChildInfo)

/-- Embeds the wait loop of `runStep` (jobs.go lines 462-470).  `dep t` is the
dependency sibling `Outputs` map observed at the t-th poll.  One iteration:
if the sibling published anything (`len(depTask.Outputs) > 0`), assign
`task.Parameters[taskInput] = depTask.Outputs[outputID]` (a missing key reads
as the nil interface, `Value.null`); the loop exits as soon as the key
`taskInput` is present in the parameters.  `none` means the fuel ran out with
the activity still waiting (the Go loop polls forever, sleeping 2 s). -/
def waitBindLoop (dep : Nat → Params) (outputID taskInput : String) :
    Params → Nat → Nat → Option (Params × Nat)
  | _, _, 0 => none
  | params, t, fuel+1 =>
    let params! :=
      if (dep t).isEmpty then params
      else mset params taskInput ((mget (dep t) outputID).getD Value.null)
    if (mget params! taskInput).isSome then some (params!, t + 1)
    else waitBindLoop dep outputID taskInput params! (t + 1) fuel

/-- Embeds the body of the per-`in`-entry loop of `runStep` (jobs.go lines
447-477) for one input binding.  `sched stepID t` is the `Outputs` map of the
child task of step `stepID` at poll `t`.  Mirrors the source: the activity
reads only `input.Source[0]` (an empty `Source` is a Go index-out-of-range
panic, rendered as `Except.error`); if that source is a key of the parent
`outputIDMap` the activity enters the wait loop against the dependency task
(whose absence from `Children` would be a nil dereference); otherwise, if the
source has the parent workflow id as a prefix, it binds directly from the
parent parameters with no loop. -/
def runStepBindInput (parent : ParentCtx) (curStep : Step) (input : StepInput)
    (sched : String → Nat → Params) (params : Params) (t fuel : Nat) :
    Option (Except String (Params × Nat)) :=
  let taskInput := step2taskID curStep input.id
  match input.source with
  | [] => some (.error "index out of range: input.Source[0]")
  | source :: _ =>
    match mget parent.outputIDMap source with
    | some depStepID =>
      match mget parent.children depStepID with
      | none => some (.error "nil dereference: dependency task not in Children")
      | some dep =>
        let outputID := dep.rootID ++ trimPrefixStr source depStepID
        (waitBindLoop (sched depStepID) outputID taskInput params t fuel).map
          (fun r => .ok r)
    | none =>
      if goHasPrefix source parent.rootID then
        some (.ok
          (mset params taskInput ((mget parent.parameters source).getD Value.null), t))
      else
        some (.ok (params, t))

theorem waitBindLoop_still_waiting (dep : Nat → Params) (outputID taskInput : String)
    (t0 : Nat) (hempty : ∀ u, u < t0 → dep u = []) :
    ∀ fuel t params, mget params taskInput = none → t + fuel ≤ t0 →
      waitBindLoop dep outputID taskInput params t fuel = none := by
  intro fuel
  induction fuel with
  | zero => intro t params _ _; rfl
  | succ n ih =>
    intro t params hnone hle
    have ht : t < t0 := by omega
    unfold waitBindLoop
    rw [hempty t ht]
    simp only [List.isEmpty_nil, if_true, hnone, Option.isSome_none,
      Bool.false_eq_true, if_false]
    exact ih (t + 1) params hnone (by omega)

theorem waitBindLoop_binds (dep : Nat → Params) (outputID taskInput : String)
    (t0 : Nat) (Ofin : Params) (hempty : ∀ u, u < t0 → dep u = [])
    (hpub : dep t0 = Ofin) (hne : Ofin ≠ []) :
    ∀ fuel t params, mget params taskInput = none → t ≤ t0 → t0 < t + fuel →
      waitBindLoop dep outputID taskInput params t fuel =
        some (mset params taskInput ((mget Ofin outputID).getD Value.null), t0 + 1) := by
  intro fuel
  induction fuel with
  | zero => intro t params _ _ hlt; omega
  | succ n ih =>
    intro t params hnone hle hlt
    by_cases ht : t = t0
    · subst ht
      have hOn : Ofin.isEmpty = false := by
        cases Ofin with
        | nil => exact absurd rfl hne
        | cons a l => rfl
      unfold waitBindLoop
      rw [hpub]
      simp only [hOn, Bool.false_eq_true, if_false,
        mget_mset_self, Option.isSome_some, if_true]
    · have ht' : t < t0 := by omega
      unfold waitBindLoop
      rw [hempty t ht']
      simp only [List.isEmpty_nil, if_true, hnone, Option.isSome_none,
        Bool.false_eq_true, if_false]
      exact ih (t + 1) params hnone (by omega) (by omega)

/-- claim C1: for every `in` entry of a child step, the scheduling activity
binds exactly one source (only `Source[0]` is consulted); when that source is
a key of the parent `outputIDMap` the activity returns nothing until the
producing sibling has published its outputs, and at the first poll that finds
them it binds the child input parameter to the sibling outputs entry under the
rewritten id (which equals `step2taskID` of the sibling step under the
resolver invariant `Root.ID = step.Run.Value`); otherwise, when the source has
the parent workflow id as a prefix, it binds the child input directly from the
parent task parameters under the source id, immediately and independently of
any sibling schedule or fuel. -/
theorem runStep_in_binding_spec
    (parent : ParentCtx) (curStep : Step) (inputID source : String)
    (rest : List String) (sched : String → Nat → Params) (params : Params) :
    (∀ t fuel,
      runStepBindInput parent curStep ⟨inputID, source :: rest⟩ sched params t fuel
        = runStepBindInput parent curStep ⟨inputID, [source]⟩ sched params t fuel)
    ∧
    (∀ depStepID dep t0 Ofin,
      mget parent.outputIDMap source = some depStepID →
      mget parent.children depStepID = some dep →
      (∀ u, u < t0 → sched depStepID u = []) →
      sched depStepID t0 = Ofin → Ofin ≠ [] →
      mget params (step2taskID curStep inputID) = none →
      (∀ fuel, fuel ≤ t0 →
        runStepBindInput parent curStep ⟨inputID, source :: rest⟩ sched params 0 fuel
          = none)
      ∧ (∀ fuel, t0 < fuel →
        runStepBindInput parent curStep ⟨inputID, source :: rest⟩ sched params 0 fuel
          = some (.ok (mset params (step2taskID curStep inputID)
              ((mget Ofin (dep.rootID ++ trimPrefixStr source depStepID)).getD
                Value.null), t0 + 1)))
      ∧ (dep.rootID = dep.originalStep.runValue → depStepID = dep.originalStep.id →
          dep.rootID ++ trimPrefixStr source depStepID
            = step2taskID dep.originalStep source))
    ∧
    (∀ t fuel,
      mget parent.outputIDMap source = none →
      goHasPrefix source parent.rootID = true →
      runStepBindInput parent curStep ⟨inputID, source :: rest⟩ sched params t fuel
        = some (.ok (mset params (step2taskID curStep inputID)
            ((mget parent.parameters source).getD Value.null), t))) := by
  refine ⟨fun t fuel => rfl, ?_, ?_⟩
  · intro depStepID dep t0 Ofin hmap hchild hempty hpub hOne hfresh
    refine ⟨?_, ?_, ?_⟩
    · intro fuel hle
      simp only [runStepBindInput, hmap, hchild]
      rw [waitBindLoop_still_waiting (sched depStepID) _ _ t0 hempty fuel 0 params
        hfresh (by omega)]
      rfl
    · intro fuel hlt
      simp only [runStepBindInput, hmap, hchild]
      rw [waitBindLoop_binds (sched depStepID) _ _ t0 Ofin hempty hpub hOne fuel 0
        params hfresh (by omega) (by omega)]
      rfl
    · intro h1 h2
      unfold step2taskID
      rw [h1, h2]
  · intro t fuel hmap hstarts
    simp only [runStepBindInput, hmap, hstarts, if_true]

/-- Concrete parent workflow context: one sibling step `stepA` producing
`out1`, one workflow-level input `in1`. -/
def c1ParentFx : ParentCtx :=
  { rootID := "#main"
    parameters := [("#main/in1", Value.str "a")]
    outputIDMap := [("#main/stepA/out1", "#main/stepA")]
    children := [("#main/stepA",
      { rootID := "#toolA.cwl"
        originalStep :=
          { id := "#main/stepA", runValue := "#toolA.cwl", stepIn := [],
            stepOut := [{ id := "#main/stepA/out1" }], scatter := [] } })] }

/-- Concrete originating step of the child activity under test. -/
def c1StepBFx : Step :=
  { id := "#main/stepB", runValue := "#toolB.cwl",
    stepIn := [{ id := "#main/stepB/inp", source := ["#main/stepA/out1"] }],
    stepOut := [], scatter := [] }

/-- Sibling outputs schedule: `stepA` publishes its outputs at poll 1. -/
def c1SchedFx : String → Nat → Params := fun sid t =>
  if sid == "#main/stepA" && t != 0 then [("#toolA.cwl/out1", Value.str "v")]
  else []

theorem runStep_in_binding_spec_witness :
    runStepBindInput c1ParentFx c1StepBFx
        ⟨"#main/stepB/inp", ["#main/stepA/out1"]⟩ c1SchedFx [] 0 1 = none
    ∧ runStepBindInput c1ParentFx c1StepBFx
        ⟨"#main/stepB/inp", ["#main/stepA/out1"]⟩ c1SchedFx [] 0 2
        = some (.ok ([("#toolB.cwl/inp", Value.str "v")], 2))
    ∧ runStepBindInput c1ParentFx c1StepBFx
        ⟨"#main/stepB/in2", ["#main/in1"]⟩ c1SchedFx [] 0 0
        = some (.ok ([("#toolB.cwl/in2", Value.str "a")], 0)) := by
  have hempty : ∀ u, u < 1 → c1SchedFx "#main/stepA" u = [] := by
    intro u hu
    have hz : u = 0 := by omega
    subst hz
    rfl
  have H := runStep_in_binding_spec c1ParentFx c1StepBFx "#main/stepB/inp"
    "#main/stepA/out1" [] c1SchedFx []
  have H2 := (H.2.1 "#main/stepA"
    { rootID := "#toolA.cwl"
      originalStep :=
        { id := "#main/stepA", runValue := "#toolA.cwl", stepIn := [],
          stepOut := [{ id := "#main/stepA/out1" }], scatter := [] } }
    1 [("#toolA.cwl/out1", Value.str "v")] rfl rfl hempty rfl (by decide) rfl)
  refine ⟨H2.1 1 (by decide), ?_, ?_⟩
  · rw [H2.2.1 2 (by decide)]
    decide
  · have H3 := runStep_in_binding_spec c1ParentFx c1StepBFx "#main/stepB/in2"
      "#main/in1" [] c1SchedFx []
    rw [H3.2.2 0 0 rfl (by decide)]
    decide

/-- A declared workflow output (`cwl.Output` as read by `mergeChildOutputs`):
its `ID` and its `Source` (the `outputSource` list). -/
structure OutputParam where
  id : String
  source : List String
deriving DecidableEq

/-- Embeds the wait loop of `mergeChildOutputs` (jobs.go lines 536-542) for a
single declared output.  `sched1 t` is the producing child `Outputs` map at
the t-th poll.  One iteration: if the child map has the key `subID`, assign
`task.Outputs[outKey] = outputVal`; the loop exits as soon as `outKey` is
present in the parent outputs.  The first component is a ghost trace of the
parent outputs map after each assignment; `none` means the fuel ran out with
the gather still waiting (the Go loop polls forever, sleeping 2 s). -/
def mergeLoop (sched1 : Nat → Params) (subID outKey : String) :
    Params → Nat → Nat → List Params × Option (Params × Nat)
  | _, _, 0 => ([], none)
  | outs, t, fuel+1 =>
    match mget (sched1 t) subID with
    | some v => ([mset outs outKey v], some (mset outs outKey v, t + 1))
    | none =>
      if (mget outs outKey).isSome then ([], some (outs, t + 1))
      else mergeLoop sched1 subID outKey outs (t + 1) fuel

/-- Embeds the body of `mergeChildOutputs` (jobs.go lines 523-548) over the
list of declared workflow outputs.  `children` maps a step id to the
`originalStep` of the corresponding child task; `sched stepID t` is that
child task `Outputs` map at poll `t`.  An output whose `Source` does not have
exactly one entry is the `NOT SUPPORTED` panic; a source id missing from
`outputIDMap` is the `Can not find output source` panic; a step id missing
from `Children` is a nil dereference.  Returns the ghost trace of parent
outputs states after each assignment together with the final outcome. -/
def mergeGo (outputIDMap : List (String × String)) (children : List (String × Step))
    (sched : String → Nat → Params) :
    List OutputParam → Params → Nat → Nat →
      List Params × Option (Except String (Params × Nat))
  | [], outs, t, _ => ([], some (.ok (outs, t)))
  | o :: rest, outs, t, fuel =>
    match o.source with
    | [source] =>
      match mget outputIDMap source with
      | none => ([], some (.error ("Can not find output source " ++ source)))
      | some stepID =>
        match mget children stepID with
        | none => ([], some (.error "nil dereference: step not in Children"))
        | some depStep =>
          match mergeLoop (sched stepID) (step2taskID depStep source) o.id outs t fuel with
          | (tr, none) => (tr, none)
          | (tr, some (outs!, t!)) =>
            let res := mergeGo outputIDMap children sched rest outs! t! fuel
            (tr ++ res.1, res.2)
    | _ =>
      ([], some (.error "NOT SUPPORTED: unable to handle empty or array outputsource"))

/-- Embeds `(task *Task) mergeChildOutputs` from its entry point: the Go
function starts from a freshly made empty `task.Outputs` and processes the
declared outputs of `task.Root.Outputs` in order. -/
def mergeChildOutputs (outputIDMap : List (String × String))
    (children : List (String × Step)) (sched : String → Nat → Params)
    (outputs : List OutputParam) (fuel : Nat) :
    List Params × Option (Except String (Params × Nat)) :=
  mergeGo outputIDMap children sched outputs [] 0 fuel

theorem mergeLoop_waiting (sched1 : Nat → Params) (subID outKey : String) :
    ∀ fuel t outs,
      (∀ u, t ≤ u → u < t + fuel → mget (sched1 u) subID = none) →
      mget outs outKey = none →
      mergeLoop sched1 subID outKey outs t fuel = ([], none) := by
  intro fuel
  induction fuel with
  | zero => intro t outs _ _; rfl
  | succ n ih =>
    intro t outs hnone hfresh
    unfold mergeLoop
    rw [hnone t (by omega) (by omega)]
    simp only [hfresh, Option.isSome_none, Bool.false_eq_true, if_false]
    exact ih (t + 1) outs (fun u hu1 hu2 => hnone u (by omega) (by omega)) hfresh

/-- claim C2: in the output gather of a workflow task, a declared output with
exactly one `outputSource` entry is resolved to its producing child step
through `outputIDMap`; the gather waits while the corresponding child output
value is absent, and once the value is there it is copied into the parent
outputs under the parent output id, after which the remaining outputs are
processed; a declared output whose source list does not have exactly one
entry is a fatal error. -/
theorem mergeChildOutputs_gather_spec
    (outputIDMap : List (String × String)) (children : List (String × Step))
    (sched : String → Nat → Params) (o : OutputParam) (rest : List OutputParam)
    (outs : Params) (t fuel : Nat) :
    (o.source.length ≠ 1 →
      mergeGo outputIDMap children sched (o :: rest) outs t fuel
        = ([], some (.error
            "NOT SUPPORTED: unable to handle empty or array outputsource")))
    ∧
    (∀ s stepID depStep v,
      o.source = [s] →
      mget outputIDMap s = some stepID →
      mget children stepID = some depStep →
      mget (sched stepID t) (step2taskID depStep s) = some v →
      0 < fuel →
      mergeGo outputIDMap children sched (o :: rest) outs t fuel
        = (mset outs o.id v ::
            (mergeGo outputIDMap children sched rest (mset outs o.id v) (t + 1) fuel).1,
           (mergeGo outputIDMap children sched rest (mset outs o.id v) (t + 1) fuel).2))
    ∧
    (∀ s stepID depStep,
      o.source = [s] →
      mget outputIDMap s = some stepID →
      mget children stepID = some depStep →
      (∀ u, t ≤ u → u < t + fuel →
        mget (sched stepID u) (step2taskID depStep s) = none) →
      mget outs o.id = none →
      mergeGo outputIDMap children sched (o :: rest) outs t fuel = ([], none)) := by
  obtain ⟨oid, osrc⟩ := o
  refine ⟨?_, ?_, ?_⟩
  · intro hlen
    match osrc with
    | [] => rfl
    | [s] => exact absurd rfl hlen
    | s1 :: s2 :: tl => rfl
  · intro s stepID depStep v hsrc hmap hchild hval hfuel
    cases hsrc
    match fuel, hfuel with
    | n+1, _ =>
      simp only [mergeGo, hmap, hchild, mergeLoop, hval, List.singleton_append]
  · intro s stepID depStep hsrc hmap hchild hnone hfresh
    cases hsrc
    simp only [mergeGo, hmap, hchild]
    rw [mergeLoop_waiting (sched stepID) (step2taskID depStep s) oid fuel t outs
      hnone hfresh]

/-- Concrete gather fixture: step `stepA` runs `#toolA.cwl` and declares
`out1`. -/
def c2StepAFx : Step :=
  { id := "#main/stepA", runValue := "#toolA.cwl", stepIn := [],
    stepOut := [{ id := "#main/stepA/out1" }], scatter := [] }

def c2MapFx : List (String × String) := [("#main/stepA/out1", "#main/stepA")]

def c2ChildrenFx : List (String × Step) := [("#main/stepA", c2StepAFx)]

/-- Child outputs schedule where the produced value is present from poll 0. -/
def c2SchedFx : String → Nat → Params := fun sid _ =>
  if sid == "#main/stepA" then [("#toolA.cwl/out1", Value.str "v")] else []

theorem mergeChildOutputs_gather_spec_witness :
    mergeGo c2MapFx c2ChildrenFx c2SchedFx
        [⟨"#main/wfout", []⟩] [] 0 1
      = ([], some (.error
          "NOT SUPPORTED: unable to handle empty or array outputsource"))
    ∧ mergeGo c2MapFx c2ChildrenFx c2SchedFx
        [⟨"#main/wfout", ["#main/stepA/out1"]⟩] [] 0 1
      = ([[("#main/wfout", Value.str "v")]],
         some (.ok ([("#main/wfout", Value.str "v")], 1)))
    ∧ mergeGo c2MapFx c2ChildrenFx (fun _ _ => [])
        [⟨"#main/wfout", ["#main/stepA/out1"]⟩] [] 0 3
      = ([], none) := by
  refine ⟨?_, ?_, ?_⟩
  · exact (mergeChildOutputs_gather_spec c2MapFx c2ChildrenFx c2SchedFx
      ⟨"#main/wfout", []⟩ [] [] 0 1).1 (by decide)
  · rw [(mergeChildOutputs_gather_spec c2MapFx c2ChildrenFx c2SchedFx
      ⟨"#main/wfout", ["#main/stepA/out1"]⟩ [] [] 0 1).2.1
      "#main/stepA/out1" "#main/stepA" c2StepAFx (Value.str "v")
      rfl rfl rfl (by decide) (by decide)]
    decide
  · exact (mergeChildOutputs_gather_spec c2MapFx c2ChildrenFx (fun _ _ => [])
      ⟨"#main/wfout", ["#main/stepA/out1"]⟩ [] [] 0 3).2.2
      "#main/stepA/out1" "#main/stepA" c2StepAFx rfl rfl rfl
      (fun u _ _ => rfl) rfl

/-- Observation order on outputs maps: every key present in `a` is present in
`b` with the same value. -/
def Preserves (a b : Params) : Prop :=
  ∀ k v, mget a k = some v → mget b k = some v

theorem preserves_trans {a b c : Params} (h1 : Preserves a b)
    (h2 : Preserves b c) : Preserves a c :=
  fun k v h => h2 k v (h1 k v h)

theorem preserves_mset_of_none (a : Params) (k : String) (v : Value)
    (h : mget a k = none) : Preserves a (mset a k v) := by
  intro k2 v2 h2
  by_cases hk : k2 = k
  · subst hk
    rw [h] at h2
    exact absurd h2 (by simp)
  · rw [mget_mset_ne a k2 k v hk]
    exact h2

theorem mergeLoop_shape (sched1 : Nat → Params) (subID outKey : String) :
    ∀ fuel t outs tr res,
      mergeLoop sched1 subID outKey outs t fuel = (tr, res) →
      (tr = [] ∧ (res = none ∨ ∃ t2, res = some (outs, t2)))
      ∨ (∃ v t2, tr = [mset outs outKey v] ∧ res = some (mset outs outKey v, t2)) := by
  intro fuel
  induction fuel with
  | zero =>
    intro t outs tr res h
    unfold mergeLoop at h
    obtain ⟨h1, h2⟩ := Prod.mk.injEq .. ▸ h
    exact Or.inl ⟨h1.symm ▸ rfl, Or.inl h2.symm⟩
  | succ n ih =>
    intro t outs tr res h
    unfold mergeLoop at h
    cases hv : mget (sched1 t) subID with
    | some v =>
      rw [hv] at h
      simp only at h
      obtain ⟨h1, h2⟩ := Prod.mk.injEq .. ▸ h
      exact Or.inr ⟨v, t + 1, h1.symm, h2.symm⟩
    | none =>
      rw [hv] at h
      simp only at h
      by_cases hp : (mget outs outKey).isSome
      · rw [if_pos hp] at h
        obtain ⟨h1, h2⟩ := Prod.mk.injEq .. ▸ h
        exact Or.inl ⟨h1.symm, Or.inr ⟨t + 1, h2.symm⟩⟩
      · rw [if_neg hp] at h
        exact ih (t + 1) outs tr res h

theorem mergeGo_preserves (outputIDMap : List (String × String))
    (children : List (String × Step)) (sched : String → Nat → Params) :
    ∀ (outputs : List OutputParam) (outs0 : Params) (t fuel : Nat),
      (outputs.map (fun o => o.id)).Nodup →
      (∀ o ∈ outputs, mget outs0 o.id = none) →
      List.Pairwise Preserves
        (outs0 :: (mergeGo outputIDMap children sched outputs outs0 t fuel).1) := by
  intro outputs
  induction outputs with
  | nil =>
    intro outs0 t fuel _ _
    exact List.pairwise_singleton Preserves outs0
  | cons o rest ih =>
    intro outs0 t fuel hnodup hfresh
    have hnd : o.id ∉ rest.map (fun o2 => o2.id) ∧
        (rest.map (fun o2 => o2.id)).Nodup :=
      List.nodup_cons.mp (by simpa using hnodup)
    obtain ⟨oid, osrc⟩ := o
    match osrc with
    | [] => exact List.pairwise_singleton Preserves outs0
    | s1 :: s2 :: tl => exact List.pairwise_singleton Preserves outs0
    | [s] =>
      cases hmap : mget outputIDMap s with
      | none =>
        simp only [mergeGo, hmap]
        exact List.pairwise_singleton Preserves outs0
      | some stepID =>
        cases hchild : mget children stepID with
        | none =>
          simp only [mergeGo, hmap, hchild]
          exact List.pairwise_singleton Preserves outs0
        | some depStep =>
          cases hL : mergeLoop (sched stepID) (step2taskID depStep s) oid outs0 t fuel with
          | mk tr res =>
            cases res with
            | none =>
              have htr : tr = [] := by
                rcases mergeLoop_shape (sched stepID) (step2taskID depStep s) oid
                    fuel t outs0 tr none hL with h | h
                · exact h.1
                · obtain ⟨v, t2, _, hres⟩ := h
                  exact absurd hres.symm (by simp)
              simp only [mergeGo, hmap, hchild, hL, htr]
              exact List.pairwise_singleton Preserves outs0
            | some p =>
              obtain ⟨outs1, t1⟩ := p
              simp only [mergeGo, hmap, hchild, hL]
              rcases mergeLoop_shape (sched stepID) (step2taskID depStep s) oid
                  fuel t outs0 tr (some (outs1, t1)) hL with h | h
              · obtain ⟨htr, h2⟩ := h
                rcases h2 with h2 | ⟨t2, h2⟩
                · exact absurd h2 (by simp)
                · have houts : outs1 = outs0 := by
                    injection h2 with h3
                    exact (Prod.mk.injEq .. ▸ h3).1
                  subst houts
                  rw [htr, List.nil_append]
                  exact ih outs1 t1 fuel hnd.2
                    (fun o2 hm => hfresh o2 (List.mem_cons_of_mem _ hm))
              · obtain ⟨v, t2, htr, hres⟩ := h
                have houts : outs1 = mset outs0 oid v := by
                  injection hres with h3
                  exact (Prod.mk.injEq .. ▸ h3).1
                subst houts
                rw [htr, List.cons_append, List.nil_append]
                have hme : mget outs0 oid = none :=
                  hfresh ⟨oid, [s]⟩ (List.mem_cons_self _ _)
                have h0 : Preserves outs0 (mset outs0 oid v) :=
                  preserves_mset_of_none outs0 oid v hme
                have hfresh2 : ∀ o2 ∈ rest, mget (mset outs0 oid v) o2.id = none := by
                  intro o2 hm
                  have hne : o2.id ≠ oid := by
                    intro hc
                    exact hnd.1 (hc ▸ List.mem_map_of_mem (fun x => x.id) hm)
                  rw [mget_mset_ne outs0 o2.id oid v hne]
                  exact hfresh o2 (List.mem_cons_of_mem _ hm)
                have hrest := ih (mset outs0 oid v) t1 fuel hnd.2 hfresh2
                refine List.Pairwise.cons ?_ hrest
                intro b hb
                rcases List.mem_cons.mp hb with hb | hb
                · exact hb ▸ h0
                · exact preserves_trans h0 ((List.pairwise_cons.mp hrest).1 b hb)

/-- claim C3: task output mappings are write-once.  Running the gather of a
workflow task (which starts from a freshly made empty `task.Outputs`) yields
a trace of outputs-map states in which, once a key is observed present, every
later state carries the same value for it; the scheduling activity of
`runStep` writes only child task parameters (its embedding
`runStepBindInput` reads sibling outputs through the schedule and never
produces an outputs map), so the gather trace is the complete set of writes
to `task.Outputs`. -/
theorem task_outputs_write_once (outputIDMap : List (String × String))
    (children : List (String × Step)) (sched : String → Nat → Params)
    (outputs : List OutputParam) (fuel : Nat)
    (hnodup : (outputs.map (fun o => o.id)).Nodup) :
    List.Pairwise Preserves
      ([] :: (mergeChildOutputs outputIDMap children sched outputs fuel).1) :=
  mergeGo_preserves outputIDMap children sched outputs [] 0 fuel hnodup
    (fun _ _ => rfl)

theorem task_outputs_write_once_witness :
    List.Pairwise Preserves
      ([] :: (mergeChildOutputs c2MapFx c2ChildrenFx c2SchedFx
        [⟨"#main/wfout", ["#main/stepA/out1"]⟩,
         ⟨"#main/wfout2", ["#main/stepA/out1"]⟩] 2).1) :=
  task_outputs_write_once c2MapFx c2ChildrenFx c2SchedFx
    [⟨"#main/wfout", ["#main/stepA/out1"]⟩,
     ⟨"#main/wfout2", ["#main/stepA/out1"]⟩] 2 (by decide)

/-- Modelled from the spec: mariner status-string constant for a completed
run or job.  The config file defining mariner status constants is not among
the provided sources; section 3 (Run record) fixes the status vocabulary
queued, running, completed, failed, cancelled, unknown. -/
def completed : String := "completed"

/-- Modelled from the spec: mariner status-string constant for a failed
run or job (see `completed`). -/
def failedS : String := "failed"

/-- Modelled from the spec: mariner status-string constant for a running
run or job (see `completed`). -/
def runningS : String := "running"

/-- Modelled from the spec: mariner status-string constant for a job whose
state cannot be classified (see `completed`). -/
def unknown : String := "unknown"

/-- `batchv1.JobStatus`: the `Active`, `Succeeded` and `Failed` counters
(int32 in k8s, embedded as integers). -/
structure JobStatus where
  active : Int
  succeeded : Int
  failed : Int
deriving DecidableEq

/-- Embeds `jobStatusToString` (jobs.go lines 235-249); the argument is the
possibly-nil `*batchv1.JobStatus`. -/
def jobStatusToString : Option JobStatus → String
  | none => unknown
  | some status =>
    if status.succeeded ≥ 1 then completed
    else if status.failed ≥ 1 then failedS
    else if status.active ≥ 1 then runningS
    else unknown

/-- claim C5: `jobStatusToString` is total and decided in the precedence
order succeeded, failed, running: it returns `completed` exactly when
`Succeeded ≥ 1`; otherwise `failed` exactly when `Failed ≥ 1`; otherwise
`running` exactly when `Active ≥ 1`; and `unknown` in every remaining case,
including a nil status. -/
theorem jobStatusToString_spec :
    jobStatusToString none = unknown
    ∧ (∀ js : JobStatus,
        (jobStatusToString (some js) = completed ↔ 1 ≤ js.succeeded)
        ∧ (js.succeeded < 1 →
            (jobStatusToString (some js) = failedS ↔ 1 ≤ js.failed))
        ∧ (js.succeeded < 1 → js.failed < 1 →
            (jobStatusToString (some js) = runningS ↔ 1 ≤ js.active))
        ∧ (js.succeeded < 1 → js.failed < 1 → js.active < 1 →
            jobStatusToString (some js) = unknown)) := by
  refine ⟨rfl, fun js => ⟨?_, ?_, ?_, ?_⟩⟩
  · constructor
    · intro h
      by_contra hn
      have hs : ¬ js.succeeded ≥ 1 := by omega
      simp only [jobStatusToString, hs, if_false] at h
      by_cases hf : js.failed ≥ 1
      · simp only [hf, if_true] at h
        exact absurd h (by decide)
      · simp only [hf, if_false] at h
        by_cases ha : js.active ≥ 1
        · simp only [ha, if_true] at h
          exact absurd h (by decide)
        · simp only [ha, if_false] at h
          exact absurd h (by decide)
    · intro h
      simp only [jobStatusToString, (show js.succeeded ≥ 1 from h), if_true]
  · intro hs
    have hs2 : ¬ js.succeeded ≥ 1 := by omega
    constructor
    · intro h
      by_contra hn
      have hf : ¬ js.failed ≥ 1 := by omega
      simp only [jobStatusToString, hs2, hf, if_false] at h
      by_cases ha : js.active ≥ 1
      · simp only [ha, if_true] at h
        exact absurd h (by decide)
      · simp only [ha, if_false] at h
        exact absurd h (by decide)
    · intro h
      simp only [jobStatusToString, hs2, if_false, (show js.failed ≥ 1 from h),
        if_true]
  · intro hs hf
    have hs2 : ¬ js.succeeded ≥ 1 := by omega
    have hf2 : ¬ js.failed ≥ 1 := by omega
    constructor
    · intro h
      by_contra hn
      have ha : ¬ js.active ≥ 1 := by omega
      simp only [jobStatusToString, hs2, hf2, ha, if_false] at h
      exact absurd h (by decide)
    · intro h
      simp only [jobStatusToString, hs2, hf2, if_false,
        (show js.active ≥ 1 from h), if_true]
  · intro hs hf ha
    have hs2 : ¬ js.succeeded ≥ 1 := by omega
    have hf2 : ¬ js.failed ≥ 1 := by omega
    have ha2 : ¬ js.active ≥ 1 := by omega
    simp only [jobStatusToString, hs2, hf2, ha2, if_false]

theorem jobStatusToString_spec_witness :
    (jobStatusToString (some ⟨0, 1, 1⟩) = completed ↔ 1 ≤ (1 : Int))
    ∧ (jobStatusToString (some ⟨1, 0, 1⟩) = failedS ↔ 1 ≤ (1 : Int))
    ∧ (jobStatusToString (some ⟨1, 0, 0⟩) = runningS ↔ 1 ≤ (1 : Int))
    ∧ jobStatusToString (some ⟨0, 0, 0⟩) = unknown :=
  ⟨(jobStatusToString_spec.2 ⟨0, 1, 1⟩).1,
   (jobStatusToString_spec.2 ⟨1, 0, 1⟩).2.1 (by decide),
   (jobStatusToString_spec.2 ⟨1, 0, 0⟩).2.2.1 (by decide) (by decide),
   (jobStatusToString_spec.2 ⟨0, 0, 0⟩).2.2.2 (by decide) (by decide) (by decide)⟩

/-- A `batchv1.Job` as the reaper sees it: UID, name, its `app` label and its
status block. -/
structure KJob where
  uid : String
  name : String
  label : String
  status : JobStatus
deriving DecidableEq

/-- `JobInfo` (jobs.go): UID, name and stringified status. -/
structure JobInfo where
  uid : String
  name : String
  status : String
deriving DecidableEq

/-- A `jobsClient.Delete` call as issued by `deleteJobs`: target job name,
grace period seconds from `metav1.NewDeleteOptions`, propagation policy. -/
structure DeleteAction where
  name : String
  gracePeriodSeconds : Int
  propagationPolicy : String
deriving DecidableEq

/-- Embeds `listMarinerJobs` (jobs.go): list jobs labeled
`app=mariner-task`, then jobs labeled `app=mariner-engine`, and concatenate. -/
def listMarinerJobs (cluster : List KJob) : List KJob :=
  cluster.filter (fun j => j.label == "app=mariner-task")
    ++ cluster.filter (fun j => j.label == "app=mariner-engine")

/-- Embeds `jobByID` (jobs.go): first mariner job whose UID matches. -/
def jobByID (cluster : List KJob) (jobID : String) : Option KJob :=
  (listMarinerJobs cluster).find? (fun j => jobID == j.uid)

/-- Embeds `jobStatusByID` (jobs.go): look the job up by UID and stringify
its status; `none` is the `job not found` error. -/
def jobStatusByID (cluster : List KJob) (jobID : String) : Option JobInfo :=
  (jobByID cluster jobID).map
    (fun j => ⟨j.uid, j.name, jobStatusToString (some j.status)⟩)

/-- Embeds `deleteJobs` (jobs.go lines 271-294).  For each job: re-fetch its
status by UID (an error is logged and the job skipped); if the reported
status equals `condition`, issue a Delete with the options built from
`metav1.NewDeleteOptions(120)` and `PropagationPolicy = Background`.
`delErr j` says whether that Delete call fails, in which case the function
returns early and no further job is examined. -/
def deleteJobs : List KJob → String → List KJob → (String → Bool) → List DeleteAction
  | [], _, _, _ => []
  | j :: rest, condition, cluster, delErr =>
    match jobStatusByID cluster j.uid with
    | none => deleteJobs rest condition cluster delErr
    | some info =>
      if info.status == condition then
        if delErr j.name then [⟨j.name, 120, "Background"⟩]
        else ⟨j.name, 120, "Background"⟩ :: deleteJobs rest condition cluster delErr
      else deleteJobs rest condition cluster delErr

/-- Embeds one pass of `deleteCompletedJobs` (jobs.go lines 254-267): list
the mariner-labeled jobs and call `deleteJobs` with condition `completed`. -/
def deleteCompletedJobsPass (cluster : List KJob) (delErr : String → Bool) :
    List DeleteAction :=
  deleteJobs (listMarinerJobs cluster) completed cluster delErr

theorem deleteJobs_only_condition (condition : String) (cluster : List KJob)
    (delErr : String → Bool) :
    ∀ jobs a, a ∈ deleteJobs jobs condition cluster delErr →
      a.gracePeriodSeconds = 120 ∧ a.propagationPolicy = "Background"
      ∧ ∃ j ∈ jobs, a.name = j.name
          ∧ ∃ info, jobStatusByID cluster j.uid = some info
              ∧ info.status = condition := by
  intro jobs
  induction jobs with
  | nil => intro a ha; exact absurd ha (by simp [deleteJobs])
  | cons j rest ih =>
    intro a ha
    unfold deleteJobs at ha
    cases hst : jobStatusByID cluster j.uid with
    | none =>
      rw [hst] at ha
      obtain ⟨h1, h2, jj, hj, h3⟩ := ih a ha
      exact ⟨h1, h2, jj, List.mem_cons_of_mem _ hj, h3⟩
    | some info =>
      rw [hst] at ha
      simp only at ha
      by_cases hc : info.status == condition
      · rw [if_pos hc] at ha
        have hcond : info.status = condition := beq_iff_eq.mp hc
        by_cases hde : delErr j.name
        · rw [if_pos hde] at ha
          have haeq : a = ⟨j.name, 120, "Background"⟩ := by
            simpa using ha
          subst haeq
          exact ⟨rfl, rfl, j, List.mem_cons_self _ _, rfl, info, hst, hcond⟩
        · rw [if_neg hde] at ha
          rcases List.mem_cons.mp ha with haeq | ha2
          · subst haeq
            exact ⟨rfl, rfl, j, List.mem_cons_self _ _, rfl, info, hst, hcond⟩
          · obtain ⟨h1, h2, jj, hj, h3⟩ := ih a ha2
            exact ⟨h1, h2, jj, List.mem_cons_of_mem _ hj, h3⟩
      · rw [if_neg hc] at ha
        obtain ⟨h1, h2, jj, hj, h3⟩ := ih a ha
        exact ⟨h1, h2, jj, List.mem_cons_of_mem _ hj, h3⟩

theorem deleteJobs_nil_of_no_condition (condition : String) (cluster : List KJob)
    (delErr : String → Bool) :
    ∀ jobs,
      (∀ j ∈ jobs, ∀ info, jobStatusByID cluster j.uid = some info →
        info.status ≠ condition) →
      deleteJobs jobs condition cluster delErr = [] := by
  intro jobs
  induction jobs with
  | nil => intro _; rfl
  | cons j rest ih =>
    intro hno
    unfold deleteJobs
    cases hst : jobStatusByID cluster j.uid with
    | none => exact ih fun j2 hj2 => hno j2 (List.mem_cons_of_mem _ hj2)
    | some info =>
      simp only
      have hne : ¬ (info.status == condition) := by
        simp only [beq_iff_eq]
        exact hno j (List.mem_cons_self _ _) info hst
      rw [if_neg hne]
      exact ih fun j2 hj2 => hno j2 (List.mem_cons_of_mem _ hj2)

/-- claim C6: on a pass of the job reaper over the mariner-labeled jobs,
every Delete call targets a job whose re-fetched reported status equals the
`completed` status, and carries grace period 120 seconds with Background
propagation; when no listed job reports `completed` (in particular when the
jobs report `failed`), the pass deletes nothing. -/
theorem reaper_deletes_only_completed (cluster : List KJob)
    (delErr : String → Bool) :
    (∀ a ∈ deleteCompletedJobsPass cluster delErr,
      a.gracePeriodSeconds = 120 ∧ a.propagationPolicy = "Background"
      ∧ ∃ j ∈ listMarinerJobs cluster, a.name = j.name
          ∧ ∃ info, jobStatusByID cluster j.uid = some info
              ∧ info.status = completed)
    ∧ ((∀ j ∈ listMarinerJobs cluster, ∀ info,
          jobStatusByID cluster j.uid = some info → info.status ≠ completed) →
        deleteCompletedJobsPass cluster delErr = []) :=
  ⟨fun a ha => deleteJobs_only_condition completed cluster delErr
      (listMarinerJobs cluster) a ha,
   fun hno => deleteJobs_nil_of_no_condition completed cluster delErr
      (listMarinerJobs cluster) hno⟩

/-- Reaper fixture: one completed task job and one failed task job. -/
def c6ClusterFx : List KJob :=
  [⟨"u1", "job1", "app=mariner-task", ⟨0, 1, 0⟩⟩,
   ⟨"u2", "job2", "app=mariner-task", ⟨0, 0, 1⟩⟩]

/-- Reaper fixture: a single failed task job. -/
def c6FailedFx : List KJob := [⟨"u2", "job2", "app=mariner-task", ⟨0, 0, 1⟩⟩]

theorem reaper_deletes_only_completed_witness :
    ((⟨"job1", 120, "Background"⟩ : DeleteAction).gracePeriodSeconds = 120
      ∧ (⟨"job1", 120, "Background"⟩ : DeleteAction).propagationPolicy
          = "Background"
      ∧ ∃ j ∈ listMarinerJobs c6ClusterFx,
          (⟨"job1", 120, "Background"⟩ : DeleteAction).name = j.name
          ∧ ∃ info, jobStatusByID c6ClusterFx j.uid = some info
              ∧ info.status = completed)
    ∧ deleteCompletedJobsPass c6FailedFx (fun _ => false) = [] := by
  constructor
  · exact (reaper_deletes_only_completed c6ClusterFx (fun _ => false)).1
      ⟨"job1", 120, "Background"⟩ (by decide)
  · apply (reaper_deletes_only_completed c6FailedFx (fun _ => false)).2
    intro j hj info hinfo
    have hj2 : j = ⟨"u2", "job2", "app=mariner-task", ⟨0, 0, 1⟩⟩ := by
      simpa [listMarinerJobs, c6FailedFx] using hj
    subst hj2
    have heval : jobStatusByID c6FailedFx "u2" = some ⟨"u2", "job2", failedS⟩ := by
      decide
    rw [heval] at hinfo
    injection hinfo with h
    subst h
    decide

/-- Embeds `handleCancelRunPOST` (server.go lines 138-140).  The handler body
is empty: it performs no cluster or run-registry operation and writes nothing
to the `http.ResponseWriter`; a Go net/http handler that returns without
writing a header sends an implicit `200 OK`.  Rendered as a transformer of
the cluster job list paired with the HTTP status actually sent. -/
def handleCancelRunPOST (cluster : List KJob) : List KJob × Nat :=
  (cluster, 200)

/-- claim C4 (code bug): a cancel request leaves the cluster unchanged — the
engine job labeled with the run id is still there — and the response status
is 200, not the specified 204. -/
theorem handleCancelRunPOST_is_stub :
    handleCancelRunPOST
        [⟨"e1", "mariner-engine-run1", "app=mariner-engine", ⟨1, 0, 0⟩⟩]
      = ([⟨"e1", "mariner-engine-run1", "app=mariner-engine", ⟨1, 0, 0⟩⟩], 200)
    ∧ (200 : Nat) ≠ 204 :=
  ⟨rfl, by decide⟩

/-- A pod as returned by the pods client (only its name is read). -/
structure Pod where
  name : String
deriving DecidableEq

/-- `metricsBeta1.ContainerMetrics`: container name and its usage, with the
`Quantity` conversions of the source (`Usage.Cpu().MilliValue()` and
`Usage.Memory().ScaledValue(resource.Mega)`) abstracted as the stored
millicore and megabyte magnitudes. -/
structure ContainerMetrics where
  name : String
  cpuMilli : Int
  memMB : Int
deriving DecidableEq

/-- `metricsBeta1.PodMetrics`: pod name and its container metrics list. -/
structure PodMetrics where
  name : String
  containers : List ContainerMetrics
deriving DecidableEq

/-- Modelled from the spec: the well-known primary container name
(`task-container`, section 4.5); the config constant `taskContainerName` is
not among the provided sources. -/
def taskContainerName : String := "task-container"

/-- Embeds `containerMetrics` (server.go): scan the pod metrics list for the
target pod, keep the last container whose name matches the target; the zero
value (empty name) left after the scan is the `container not found` error. -/
def containerMetrics (targetPod : Pod) (targetContainer : String)
    (pods : List PodMetrics) : Except String ContainerMetrics :=
  let found := pods.foldl
    (fun acc i =>
      if i.name == targetPod.name then
        i.containers.foldl
          (fun acc2 c => if c.name == targetContainer then c else acc2) acc
      else acc)
    ⟨"", 0, 0⟩
  if found.name == "" then
    .error "container not found in list returned by metrics API"
  else .ok found

/-- Embeds the free function `resourceUsage` (server.go lines 563-573). -/
def resourceUsageOf (container : ContainerMetrics) : Int × Int :=
  (container.cpuMilli, container.memMB)

/-- Embeds `containerResourceUsage` (server.go lines 578-593);
`metricsResult` is the outcome of `metricsByPod`.  A metrics API error or an
absent container yields the nil sample `(0, 0)`. -/
def containerResourceUsage (targetPod : Pod) (targetContainer : String)
    (metricsResult : Except String (List PodMetrics)) : Int × Int :=
  match metricsResult with
  | .error _ => (0, 0)
  | .ok pods =>
    match containerMetrics targetPod targetContainer pods with
    | .error _ => (0, 0)
    | .ok c => resourceUsageOf c

/-- Embeds the method `(tool *Tool) resourceUsage` (server.go lines 432-460);
`podListResult` is the outcome of listing pods with the job-name label
selector.  A list error, zero pods or more than one pod yields `(0, 0)`. -/
def toolResourceUsage (podListResult : Except String (List Pod))
    (metricsResult : Except String (List PodMetrics)) : Int × Int :=
  match podListResult with
  | .error _ => (0, 0)
  | .ok items =>
    match items with
    | [] => (0, 0)
    | [p] => containerResourceUsage p taskContainerName metricsResult
    | _ => (0, 0)

/-- One resource usage sample point `(cpu millicores, memory MB)`. -/
structure SamplePoint where
  cpu : Int
  mem : Int
deriving DecidableEq

/-- Embeds `(tool *Tool) sampleResourceUsage` (server.go lines 420-430):
collect the `(cpu, mem)` pair and append it to the task log series. -/
def sampleResourceUsage (series : List SamplePoint)
    (podListResult : Except String (List Pod))
    (metricsResult : Except String (List PodMetrics)) : List SamplePoint :=
  series ++ [⟨(toolResourceUsage podListResult metricsResult).1,
             (toolResourceUsage podListResult metricsResult).2⟩]

/-- What one sampling iteration observes from the cluster. -/
structure MetricsObs where
  podList : Except String (List Pod)
  metrics : Except String (List PodMetrics)

/-- Embeds the loop of `collectResourceMetrics` (server.go lines 487-497):
while the task `Done` flag is false, collect one sample and append it, then
sleep out the sampling period.  `done t` is the flag at the t-th iteration,
`obs t` the cluster observation; the fuel bounds the modelled iterations. -/
def collectResourceMetricsLoop (done : Nat → Bool) (obs : Nat → MetricsObs) :
    Nat → List SamplePoint → Nat → List SamplePoint
  | _, series, 0 => series
  | t, series, fuel+1 =>
    if done t then series
    else collectResourceMetricsLoop done obs (t + 1)
      (sampleResourceUsage series (obs t).podList (obs t).metrics) fuel

/-- claim C7: every metrics error — pod list error, zero pods, more than one
pod, metrics API error, or target container absent — is non-fatal: the
sampling iteration still appends exactly one sample and that sample is
`(0, 0)`; and the sampling loop keeps recording one sample per period until
the `Done` flag flips, so after `k` not-done iterations the series has grown
by exactly `k` samples. -/
theorem metrics_errors_nonfatal
    (series : List SamplePoint) (e : String) (p : Pod)
    (pods : List PodMetrics) (mres : Except String (List PodMetrics)) :
    (sampleResourceUsage series (.error e) mres = series ++ [⟨0, 0⟩])
    ∧ (sampleResourceUsage series (.ok []) mres = series ++ [⟨0, 0⟩])
    ∧ (∀ (p2 : Pod) (tl : List Pod),
        sampleResourceUsage series (.ok (p :: p2 :: tl)) mres
          = series ++ [⟨0, 0⟩])
    ∧ (sampleResourceUsage series (.ok [p]) (.error e) = series ++ [⟨0, 0⟩])
    ∧ (containerMetrics p taskContainerName pods = .error
          "container not found in list returned by metrics API" →
        sampleResourceUsage series (.ok [p]) (.ok pods) = series ++ [⟨0, 0⟩])
    ∧ (∀ (done : Nat → Bool) (obs : Nat → MetricsObs) (k t : Nat)
        (series2 : List SamplePoint) (fuel : Nat),
        (∀ u, t ≤ u → u < t + k → done u = false) → done (t + k) = true →
        k < fuel →
        (collectResourceMetricsLoop done obs t series2 fuel).length
          = series2.length + k) := by
  refine ⟨rfl, rfl, fun _ _ => rfl, rfl, ?_, ?_⟩
  · intro hcm
    simp only [sampleResourceUsage, toolResourceUsage, containerResourceUsage,
      hcm]
  · intro done obs k
    induction k with
    | zero =>
      intro t series2 fuel _ hdone hfuel
      match fuel, hfuel with
      | m+1, _ =>
        unfold collectResourceMetricsLoop
        rw [show done t = true from by simpa using hdone]
        simp
    | succ n ih =>
      intro t series2 fuel hfalse hdone hfuel
      match fuel, hfuel with
      | m+1, hm =>
        unfold collectResourceMetricsLoop
        rw [hfalse t (by omega) (by omega)]
        simp only [Bool.false_eq_true, if_false]
        rw [ih (t + 1) _ m (fun u h1 h2 => hfalse u (by omega) (by omega))
          (by rw [show t + 1 + n = t + (n + 1) from by omega]; exact hdone)
          (by omega)]
        simp only [sampleResourceUsage, List.length_append, List.length_cons,
          List.length_nil]
        omega

theorem metrics_errors_nonfatal_witness :
    (sampleResourceUsage [] (.ok []) (.ok []) = [⟨0, 0⟩])
    ∧ (sampleResourceUsage [] (.ok [⟨"pod1"⟩])
        (.ok [⟨"pod1", [⟨"istio-proxy", 5, 7⟩]⟩]) = [⟨0, 0⟩])
    ∧ (collectResourceMetricsLoop
        (fun t => decide (2 ≤ t)) (fun _ => ⟨.ok [], .ok []⟩) 0 [] 5).length
      = 0 + 2 := by
  have H := metrics_errors_nonfatal [] "e" ⟨"pod1"⟩
    [⟨"pod1", [⟨"istio-proxy", 5, 7⟩]⟩] (.ok [])
  refine ⟨H.2.1, ?_, ?_⟩
  · have H2 := metrics_errors_nonfatal [] "e" ⟨"pod1"⟩
      [⟨"pod1", [⟨"istio-proxy", 5, 7⟩]⟩]
      (.ok [⟨"pod1", [⟨"istio-proxy", 5, 7⟩]⟩])
    exact H2.2.2.2.2.1 (by decide)
  · refine H.2.2.2.2.2 (fun t => decide (2 ≤ t)) (fun _ => ⟨.ok [], .ok []⟩)
      2 0 [] 5 ?_ (by decide) (by decide)
    intro u h1 h2
    have hu : u = 0 ∨ u = 1 := by omega
    rcases hu with hu | hu <;> subst hu <;> decide

/-- An absolute-or-relative filesystem path: a flag plus segments.  Dot
segments and path cleaning are not modelled; the fixtures use none. -/
structure GoPath where
  abs : Bool
  segs : List String
deriving DecidableEq

/-- Go `filepath.Dir` (up to cleaning): drop the last path segment. -/
def dirOf (p : GoPath) : GoPath :=
  ⟨p.abs, p.segs.dropLast⟩

/-- Go `os.Chdir` on the modelled working directory: an absolute target
replaces it, a relative target is resolved under it. -/
def chdir (cwd p : GoPath) : GoPath :=
  if p.abs then p else ⟨cwd.abs, cwd.segs ++ p.segs⟩

/-- Embeds `packCWLFile` (pack.go lines 42-65): `os.Chdir(filepath.Dir(prevPath))`,
then `os.Chdir(filepath.Dir(path))`, then `os.Getwd()` is taken as the
absolute path of the target.  The file read, the id computation and the
recursive `PackCWL` call do not touch the working directory, and nothing in
the function restores it.  Returns (working directory after the call, the
computed absPath). -/
def packCWLFile (cwd : GoPath) (path prevPath : GoPath) : GoPath × GoPath :=
  let cwd1 := chdir cwd (dirOf prevPath)
  let cwd2 := chdir cwd1 (dirOf path)
  (cwd2, cwd2)

/-- counterexample to claim C8: packing `sub/c.cwl` referenced from
`/a/b.cwl` with working directory `/w` leaves the working directory at
`/a/sub`, not `/w`. -/
theorem packCWLFile_changes_cwd :
    (packCWLFile ⟨true, ["w"]⟩ ⟨false, ["sub", "c.cwl"]⟩
        ⟨true, ["a", "b.cwl"]⟩).1
      ≠ ⟨true, ["w"]⟩ := by
  decide

/-- claim C8 as amended: when the referencing file path is absolute, the
result of `packCWLFile` is a function of the target path and the referencing
path alone (the starting working directory is immaterial), but the working
directory after the call is the resolved directory of the target — the
mutation is how the path is computed, and it is not undone. -/
theorem packCWLFile_resolution (cwd cwd2 : GoPath) (path prevPath : GoPath)
    (habs : prevPath.abs = true) :
    packCWLFile cwd path prevPath = packCWLFile cwd2 path prevPath
    ∧ (packCWLFile cwd path prevPath).1
        = chdir (chdir cwd (dirOf prevPath)) (dirOf path) := by
  constructor
  · simp [packCWLFile, chdir, dirOf, habs]
  · rfl

theorem packCWLFile_resolution_witness :
    packCWLFile ⟨true, ["w"]⟩ ⟨false, ["sub", "c.cwl"]⟩ ⟨true, ["a", "b.cwl"]⟩
      = packCWLFile ⟨false, []⟩ ⟨false, ["sub", "c.cwl"]⟩ ⟨true, ["a", "b.cwl"]⟩
    ∧ (packCWLFile ⟨true, ["w"]⟩ ⟨false, ["sub", "c.cwl"]⟩
        ⟨true, ["a", "b.cwl"]⟩).1
      = chdir (chdir ⟨true, ["w"]⟩ (dirOf ⟨true, ["a", "b.cwl"]⟩))
          (dirOf ⟨false, ["sub", "c.cwl"]⟩) :=
  packCWLFile_resolution ⟨true, ["w"]⟩ ⟨false, []⟩ ⟨false, ["sub", "c.cwl"]⟩
    ⟨true, ["a", "b.cwl"]⟩ rfl

/-- A generic CWL document tree, as produced by `yaml.Unmarshal` into
`interface{}`: strings, sequences, and mappings.  Other YAML scalars
(numbers, booleans) fall through `nuConvert` unchanged and are omitted from
the model. -/
inductive CVal where
  | str (s : String)
  | arr (xs : List CVal)
  | map (kvs : List (String × CVal))

/-- Embeds the `mapToArray` set (schema.go): the list-or-map fields that the
packer normalizes to array form. -/
def mapToArray (k : String) : Bool :=
  k == "inputs" || k == "steps" || k == "in" || k == "outputs" ||
    k == "requirements" || k == "hints"

/-- Go `strings.Split(s, "/")[0]`: the characters before the first slash. -/
def headScope (s : String) : String :=
  ⟨s.data.takeWhile (fun c => c != '/')⟩

/-- Go `strings.HasSuffix`, on the character sequence of the strings. -/
def goHasSuffix (s suf : String) : Bool :=
  suf.data.isSuffixOf s.data

/-- Go `filepath.Base` for ordinary file names (no trailing separator): the
characters after the last slash. -/
def goBase (p : String) : String :=
  ⟨(p.data.reverse.takeWhile (fun c => c != '/')).reverse⟩

/-- Embeds `resolveType` (schema.go lines 75-89): expand the CWL shorthand
suffixes, `T[]` to the array form and `T?` to the optional form. -/
def resolveType (s : String) : CVal :=
  if goHasSuffix s "[]" then
    .map [("type", .str "array"), ("items", .str (s.dropRight 2))]
  else if goHasSuffix s "?" then
    .arr [.str (s.dropRight 1), .str "null"]
  else .str s

/-- The sentinel parent key of the initial call per file (schema.go). -/
def primaryRoutine : String := "primaryRoutine"

mutual

/-- Embeds `nuConvert` (schema.go lines 98-155) as the value transformation
it performs.  The `$graph` accumulation and the `versionCheck` map are side
state that never alters the returned value; the recursive `PackCWLFile` call
in the `run` case reads the filesystem, its error is printed and ignored, and
the returned reference string `#basename(x)` is the same either way, so the
call is elided from the value model.  Map-key iteration order is fixed by the
association list. -/
def nuConvert : CVal → String → String → Bool → Except String CVal
  | .map kvs, parentKey, parentID, inArray =>
    if mapToArray parentKey && !inArray then
      (arrayConv kvs parentKey parentID).map CVal.arr
    else do
      let kvs2 ← convMapEntries kvs parentID
      if parentKey == primaryRoutine then
        pure (.map (mset kvs2 "id" (.str parentID)))
      else
        pure (.map kvs2)
  | .arr xs, parentKey, parentID, _ => do
    pure (.arr (← convListEntries xs parentKey parentID))
  | .str x, parentKey, parentID, _ =>
    if parentKey == "cwlVersion" then pure (.str x)
    else if parentKey == "type" then pure (resolveType x)
    else if parentKey == "source" || parentKey == "outputSource" then
      pure (.str (headScope parentID ++ "/" ++ x))
    else if parentKey == "out" || parentKey == "id" || parentKey == "scatter" then
      pure (.str (parentID ++ "/" ++ x))
    else if parentKey == "run" then pure (.str ("#" ++ goBase x))
    else pure (.str x)

/-- The map branch of `nuConvert`: each entry value is converted with the
entry key as the new parent key. -/
def convMapEntries : List (String × CVal) → String → Except String (List (String × CVal))
  | [], _ => pure []
  | (k, v) :: rest, parentID => do
    pure ((k, ← nuConvert v k parentID false) :: (← convMapEntries rest parentID))

/-- The sequence branch of `nuConvert`: elements are converted in place with
`inArray = true`. -/
def convListEntries : List CVal → String → String → Except String (List CVal)
  | [], _, _ => pure []
  | v :: rest, parentKey, parentID => do
    pure ((← nuConvert v parentKey parentID true) ::
      (← convListEntries rest parentKey parentID))

/-- Embeds `array` (schema.go lines 35-71): convert a list-or-map field
written as a mapping into the array form, expanding string shorthands and
stamping `id` (or `class` for requirements and hints). -/
def arrayConv : List (String × CVal) → String → String → Except String (List CVal)
  | [], _, _ => pure []
  | (k, v) :: rest, parentKey, parentID => do
    let id := parentID ++ "/" ++ k
    let i ← nuConvert v k id false
    let nuV ← (match i with
      | .map x => pure x
      | .str x =>
        if parentKey == "inputs" || parentKey == "outputs" then
          pure [("type", resolveType x)]
        else if parentKey == "in" then
          pure [("source", CVal.str (headScope parentID ++ "/" ++ x))]
        else Except.error ("unexpected syntax for field: " ++ parentKey)
      | _ => Except.error ("unexpected syntax for field: " ++ parentKey))
    let nuV2 :=
      if parentKey == "requirements" || parentKey == "hints" then
        mset nuV "class" (CVal.str k)
      else mset nuV "id" (CVal.str id)
    pure ((CVal.map nuV2) :: (← arrayConv rest parentKey parentID))

end

/-- Embeds `PackCWL` (pack.go lines 16-21) on the parsed document: the
initial `nuConvert` call with the `primaryRoutine` parent key. -/
def PackCWL (doc : CVal) (id : String) : Except String CVal :=
  nuConvert doc primaryRoutine id false

/-- A small document with one step input binding, in the already-parsed
form handed to `nuConvert`. -/
def c9DocFx : CVal :=
  .map [("in", .arr [.map [("source", .str "#f.cwl/x")]])]

/-- The document after one pass of the packer conversion. -/
def c9OnceFx : CVal :=
  .map [("in", .arr [.map [("source", .str "#f.cwl/#f.cwl/x")]]),
        ("id", .str "#f.cwl")]

/-- counterexample to claim C9: converting the already-converted document
prefixes the `source` identifier a second time, so pack (pack x) differs
from pack x. -/
theorem pack_not_idempotent :
    (PackCWL c9DocFx "#f.cwl").bind (fun y => PackCWL y "#f.cwl")
      ≠ PackCWL c9DocFx "#f.cwl" := by
  have h1 : PackCWL c9DocFx "#f.cwl" = .ok c9OnceFx := by
    simp [PackCWL, nuConvert, convMapEntries, convListEntries, arrayConv,
      c9DocFx, c9OnceFx, mapToArray, primaryRoutine, headScope, mset]
    rfl
  have h2 : PackCWL c9OnceFx "#f.cwl"
      = .ok (.map [("in", .arr [.map
          [("source", .str "#f.cwl/#f.cwl/#f.cwl/x")]]),
        ("id", .str "#f.cwl")]) := by
    simp [PackCWL, nuConvert, convMapEntries, convListEntries, arrayConv,
      c9OnceFx, mapToArray, primaryRoutine, headScope, mset]
    rfl
  rw [h1]
  intro hc
  rw [show (Except.ok c9OnceFx).bind (fun y => PackCWL y "#f.cwl")
      = PackCWL c9OnceFx "#f.cwl" from rfl, h2] at hc
  simp [c9OnceFx] at hc

/-- claim C9 as amended: the packer conversion is not idempotent — the
identifier rewriting prefixes a `source` (or `outputSource`) string value
with the enclosing scope unconditionally, so a value that is already fully
qualified is prefixed a second time: one conversion of `s` under scope `pid`
yields `headScope pid / s`, converting that output again yields
`headScope pid / headScope pid / s`, and the two always differ. -/
theorem source_rewrite_not_idempotent (s pid : String) :
    nuConvert (.str s) "source" pid false
      = .ok (.str (headScope pid ++ "/" ++ s))
    ∧ nuConvert (.str (headScope pid ++ "/" ++ s)) "source" pid false
      = .ok (.str (headScope pid ++ "/" ++ (headScope pid ++ "/" ++ s)))
    ∧ CVal.str (headScope pid ++ "/" ++ (headScope pid ++ "/" ++ s))
      ≠ CVal.str (headScope pid ++ "/" ++ s) := by
  refine ⟨by simp [nuConvert]; rfl, by simp [nuConvert]; rfl, ?_⟩
  intro hc
  injection hc with h2
  have hl := congrArg String.length h2
  simp [String.length_append] at hl
  exact absurd hl.2 (by decide)

theorem source_rewrite_not_idempotent_witness :
    nuConvert (.str "x") "source" "#f.cwl" false
      = .ok (.str (headScope "#f.cwl" ++ "/" ++ "x"))
    ∧ nuConvert (.str (headScope "#f.cwl" ++ "/" ++ "x")) "source" "#f.cwl" false
      = .ok (.str (headScope "#f.cwl" ++ "/" ++ (headScope "#f.cwl" ++ "/" ++ "x")))
    ∧ CVal.str (headScope "#f.cwl" ++ "/" ++ (headScope "#f.cwl" ++ "/" ++ "x"))
      ≠ CVal.str (headScope "#f.cwl" ++ "/" ++ "x") :=
  source_rewrite_not_idempotent "x" "#f.cwl"

theorem mem_mset {A : Type} (m : List (String × A)) (k : String) (v : A)
    (p : String × A) : p ∈ mset m k v → p = (k, v) ∨ p ∈ m := by
  induction m with
  | nil =>
    intro h
    simp only [mset] at h
    exact Or.inl (by simpa using h)
  | cons hd tl ih =>
    intro h
    by_cases hk : hd.1 == k
    · simp only [mset, hk, if_true] at h
      rcases List.mem_cons.mp h with h | h
      · exact Or.inl h
      · exact Or.inr (List.mem_cons_of_mem _ h)
    · simp only [mset] at h
      rw [if_neg hk] at h
      rcases List.mem_cons.mp h with h | h
      · exact Or.inr (h ▸ List.mem_cons_self _ _)
      · rcases ih h with h | h
        · exact Or.inl h
        · exact Or.inr (List.mem_cons_of_mem _ h)

/-- `Grievances` (part_000): a slice of complaint strings. -/
abbrev Grievances := List String

/-- Embeds `func (g Grievances) log(f string, vs ...interface{})` (part_000
lines 26-28).  The method receives the slice header by value, and
`g = append(g, fmt.Sprintf(f, vs...))` rebinds only that local copy.
Returns the pair (caller-visible slice after the call, final value of the
local parameter): Go slice-append on a copied header never shortens or
rewrites the entries the caller sees. -/
def grievancesLogCall (g : Grievances) (msg : String) : Grievances × Grievances :=
  (g, g ++ [msg])

/-- The caller-visible effect of a `Grievances.log` call. -/
def grievancesLog (g : Grievances) (msg : String) : Grievances :=
  (grievancesLogCall g msg).1

/-- `WorkflowGrievances` (part_000): the main list plus the per-process map. -/
structure WorkflowGrievances where
  main : Grievances
  byProcess : List (String × Grievances)

/-- `WorkflowJSON` (part_000): the `$graph` pointer and the version string. -/
structure WorkflowJSON where
  graph : Option (List (List (String × CVal)))
  cwlVersion : String

/-- Embeds `(wfg *WorkflowGrievances) empty` (part_000 lines 84-94). -/
def WorkflowGrievances.emptyCheck (wfg : WorkflowGrievances) : Bool :=
  if wfg.main.length > 0 then false
  else wfg.byProcess.all (fun p => !(p.2.length > 0))

/-- Embeds `fieldCheck` (part_000 lines 97-113): missing field, or a
non-array value for a list-or-map field, is logged (through the by-value
receiver) and invalidates; returns (valid, caller-visible grievances). -/
def fieldCheck (obj : List (String × CVal)) (field : String) (g : Grievances) :
    Bool × Grievances :=
  match mget obj field with
  | none => (false, grievancesLog g ("missing required field: " ++ field))
  | some i =>
    if mapToArray field then
      match i with
      | .arr _ => (true, g)
      | _ =>
        (false, grievancesLog g ("value for field " ++ field ++ " must be an array"))
    else (true, g)

/-- The `refObj` scan of `validateStep` (part_000 lines 212-218): keep the
last graph object whose id equals `run`; the hard type assertion
`obj["id"].(string)` panics (`none`) on any object without a string id. -/
def findRefObj (run : String) :
    List (List (String × CVal)) → Option (List (String × CVal)) →
      Option (Option (List (String × CVal)))
  | [], acc => some acc
  | obj :: rest, acc =>
    match mget obj "id" with
    | some (.str oid) =>
      findRefObj run rest (if oid == run then some obj else acc)
    | _ => none

mutual

/-- Embeds `(v *Validator) validate(obj, parentID)` (part_000 lines 117-165).
The grievance writes all go through the by-value receiver (`grievancesLog`),
so the only state change is registering the empty per-process list; the hard
assertion `obj["id"].(string)` is a panic (`none`); the fuel bounds the
recursion through step references (a cyclic graph loops forever in Go). -/
def validateObj : Nat → List (List (String × CVal)) → List (String × CVal) →
    String → WorkflowGrievances → Option WorkflowGrievances
  | 0, _, _, _, _ => none
  | fuel+1, graph, obj, _, st =>
    match mget obj "id" with
    | some (.str id) =>
      let st1 : WorkflowGrievances := { st with byProcess := mset st.byProcess id [] }
      let g : Grievances := []
      let g1 := (fieldCheck obj "inputs" g).2
      let g2 := (fieldCheck obj "outputs" g1).2
      let g3 := (fieldCheck obj "class" g2).2
      match mget obj "class" with
      | some (.str cls) =>
        if cls == "CommandLineTool" then some st1
        else if cls == "Workflow" then
          if (fieldCheck obj "steps" g3).1 then
            match mget obj "steps" with
            | some (.arr steps) => validateSteps fuel graph steps id st1
            | _ => none
          else some st1
        else if cls == "ExpressionTool" then
          let _ := (fieldCheck obj "expression" g3).2
          some st1
        else
          let _ := grievancesLog g3 ("invalid value for field class: " ++ cls)
          some st1
      | some _ => some st1
      | none => some st1
    | _ => none
termination_by fuel graph obj pid st => (fuel, 0)

/-- The `for _, step := range steps` loop of the Workflow branch. -/
def validateSteps : Nat → List (List (String × CVal)) → List CVal → String →
    WorkflowGrievances → Option WorkflowGrievances
  | _, _, [], _, st => some st
  | fuel, graph, i :: rest, parentID, st =>
    match validateStep fuel graph i parentID st with
    | none => none
    | some st2 => validateSteps fuel graph rest parentID st2
termination_by fuel graph l pid st => (fuel, 2 + l.length)

/-- Embeds `(v *Validator) validateStep(i, parentID)` (part_000 lines
178-225).  Every log goes through the by-value receiver; a missing or
non-string `run` only logs and returns; the reference scan may panic. -/
def validateStep : Nat → List (List (String × CVal)) → CVal → String →
    WorkflowGrievances → Option WorkflowGrievances
  | fuel, graph, i, parentID, st =>
    let g := (mget st.byProcess parentID).getD []
    match i with
    | .map step =>
      let g1 := match mget step "id" with
        | none => grievancesLog g "step missing id"
        | some _ => g
      let g2 := match mget step "in" with
        | none => grievancesLog g1 "step missing field: in"
        | some _ => g1
      let g3 := match mget step "out" with
        | none => grievancesLog g2 "step missing field: out"
        | some _ => g2
      let g4 := match mget step "run" with
        | none => grievancesLog g3 "step missing field: run"
        | some _ => g3
      match mget step "run" with
      | none => some st
      | some (.str run) =>
        match findRefObj run graph none with
        | none => none
        | some none =>
          let _ := grievancesLog g4 ("failed to find referenced cwl obj: " ++ run)
          some st
        | some (some refObj) => validateObj fuel graph refObj parentID st
      | some _ =>
        let _ := grievancesLog g4 "step invalid type for field: run"
        some st
    | _ =>
      let _ := grievancesLog g "step is not a map"
      some st
termination_by fuel graph i pid st => (fuel, 1)

end

/-- Embeds `ValidateWorkflow` / `(v *Validator) Validate` (part_000 lines
32-82).  The missing-graph and missing-version logs are caller-invisible
(by-value receiver); a nil `$graph` is the nil-pointer dereference of
`range *v.Workflow.Graph` (`none`); the first object with id `#main` is
validated recursively; the returned flag is `empty()` of the collected
grievances. -/
def ValidateWorkflow (wf : WorkflowJSON) (fuel : Nat) :
    Option (Bool × WorkflowGrievances) :=
  let st0 : WorkflowGrievances := ⟨[], []⟩
  match wf.graph with
  | none => none
  | some graph =>
    match graph.find? (fun obj =>
        match mget obj "id" with
        | some (CVal.str s) => s == "#main"
        | _ => false) with
    | some obj =>
      match validateObj fuel graph obj "" st0 with
      | none => none
      | some st => some (st.emptyCheck, st)
    | none => some (st0.emptyCheck, st0)

/-- All grievance lists of the collected state are empty. -/
def AllEmpty (st : WorkflowGrievances) : Prop :=
  st.main = [] ∧ ∀ p ∈ st.byProcess, p.2 = []

theorem allEmpty_emptyCheck (st : WorkflowGrievances) (h : AllEmpty st) :
    st.emptyCheck = true := by
  unfold WorkflowGrievances.emptyCheck
  rw [h.1]
  simp only [List.length_nil, gt_iff_lt, Nat.lt_irrefl, if_false]
  rw [List.all_eq_true]
  intro p hp
  simp [h.2 p hp]

theorem allEmpty_register (st : WorkflowGrievances) (id : String)
    (h : AllEmpty st) :
    AllEmpty { st with byProcess := mset st.byProcess id [] } := by
  refine ⟨h.1, ?_⟩
  intro p hp
  rcases mem_mset st.byProcess id [] p hp with hp2 | hp2
  · rw [hp2]
  · exact h.2 p hp2

theorem validateObj_allEmpty :
    ∀ (fuel : Nat) (graph : List (List (String × CVal)))
      (obj : List (String × CVal)) (pid : String)
      (st st2 : WorkflowGrievances),
      AllEmpty st → validateObj fuel graph obj pid st = some st2 → AllEmpty st2 := by
  intro fuel
  induction fuel with
  | zero =>
    intro graph obj pid st st2 _ heq
    exact absurd heq (by simp [validateObj])
  | succ n ih =>
    have hstep : ∀ graph i pid st st2, AllEmpty st →
        validateStep n graph i pid st = some st2 → AllEmpty st2 := by
      intro graph i pid st st2 hA heq
      unfold validateStep at heq
      match i with
      | .str x =>
        simp only at heq
        injection heq with h2
        exact h2 ▸ hA
      | .arr xs =>
        simp only at heq
        injection heq with h2
        exact h2 ▸ hA
      | .map step =>
        simp only at heq
        cases hrun : mget step "run" with
        | none =>
          rw [hrun] at heq
          injection heq with h2
          exact h2 ▸ hA
        | some rv =>
          rw [hrun] at heq
          match rv with
          | CVal.str run =>
            simp only at heq
            cases href : findRefObj run graph none with
            | none =>
              rw [href] at heq
              exact absurd heq (by simp)
            | some acc =>
              rw [href] at heq
              match acc with
              | none =>
                injection heq with h2
                exact h2 ▸ hA
              | some refObj =>
                exact ih graph refObj pid st st2 hA heq
          | CVal.arr xs =>
            simp only at heq
            injection heq with h2
            exact h2 ▸ hA
          | CVal.map kvs =>
            simp only at heq
            injection heq with h2
            exact h2 ▸ hA
    have hsteps : ∀ (l : List CVal) graph pid st st2, AllEmpty st →
        validateSteps n graph l pid st = some st2 → AllEmpty st2 := by
      intro l
      induction l with
      | nil =>
        intro graph pid st st2 hA heq
        unfold validateSteps at heq
        injection heq with h2
        exact h2 ▸ hA
      | cons i rest ihl =>
        intro graph pid st st2 hA heq
        unfold validateSteps at heq
        cases hs : validateStep n graph i pid st with
        | none =>
          rw [hs] at heq
          exact absurd heq (by simp)
        | some stMid =>
          rw [hs] at heq
          exact ihl graph pid stMid st2 (hstep graph i pid st stMid hA hs) heq
    intro graph obj pid st st2 hA heq
    unfold validateObj at heq
    cases hid : mget obj "id" with
    | none =>
      rw [hid] at heq
      exact absurd heq (by simp)
    | some idv =>
      rw [hid] at heq
      match idv with
      | CVal.arr xs => exact absurd heq (by simp)
      | CVal.map kvs => exact absurd heq (by simp)
      | CVal.str id =>
        simp only at heq
        have hA1 : AllEmpty { st with byProcess := mset st.byProcess id [] } :=
          allEmpty_register st id hA
        cases hcls : mget obj "class" with
        | none =>
          rw [hcls] at heq
          injection heq with h2
          exact h2 ▸ hA1
        | some cv =>
          rw [hcls] at heq
          match cv with
          | CVal.arr xs =>
            injection heq with h2
            exact h2 ▸ hA1
          | CVal.map kvs =>
            injection heq with h2
            exact h2 ▸ hA1
          | CVal.str cls =>
            simp only at heq
            by_cases h1 : cls == "CommandLineTool"
            · rw [if_pos h1] at heq
              injection heq with h2
              exact h2 ▸ hA1
            · rw [if_neg h1] at heq
              by_cases h2 : cls == "Workflow"
              · rw [if_pos h2] at heq
                by_cases h3 : (fieldCheck obj "steps"
                    (fieldCheck obj "class" (fieldCheck obj "outputs"
                      (fieldCheck obj "inputs" []).2).2).2).1
                · rw [if_pos h3] at heq
                  cases hst : mget obj "steps" with
                  | none =>
                    rw [hst] at heq
                    exact absurd heq (by simp)
                  | some sv =>
                    rw [hst] at heq
                    match sv with
                    | CVal.str x => exact absurd heq (by simp)
                    | CVal.map kvs => exact absurd heq (by simp)
                    | CVal.arr steps =>
                      exact hsteps steps graph id _ st2 hA1 heq
                · rw [if_neg h3] at heq
                  injection heq with h2
                  exact h2 ▸ hA1
              · rw [if_neg h2] at heq
                by_cases h4 : cls == "ExpressionTool"
                · rw [if_pos h4] at heq
                  injection heq with h2
                  exact h2 ▸ hA1
                · rw [if_neg h4] at heq
                  injection heq with h2
                  exact h2 ▸ hA1

/-- claim C10: `Grievances.log` appends only to the by-value copy of the
slice header, so the caller-visible grievance list is unchanged by any log
call; consequently, whenever `ValidateWorkflow` returns, every grievance
list in the returned `WorkflowGrievances` is empty and the returned flag is
true. -/
theorem validator_grievances_vacuous :
    (∀ (g : Grievances) (msg : String),
      grievancesLog g msg = g ∧ (grievancesLogCall g msg).2 = g ++ [msg])
    ∧ (∀ (wf : WorkflowJSON) (fuel : Nat) (res : Bool × WorkflowGrievances),
        ValidateWorkflow wf fuel = some res →
        res.1 = true ∧ res.2.main = [] ∧ ∀ p ∈ res.2.byProcess, p.2 = []) := by
  constructor
  · intro g msg
    exact ⟨rfl, rfl⟩
  · intro wf fuel res heq
    unfold ValidateWorkflow at heq
    cases hg : wf.graph with
    | none =>
      rw [hg] at heq
      exact absurd heq (by simp)
    | some graph =>
      rw [hg] at heq
      simp only at heq
      cases hf : graph.find? (fun obj =>
          match mget obj "id" with
          | some (CVal.str s) => s == "#main"
          | _ => false) with
      | none =>
        rw [hf] at heq
        injection heq with h2
        rw [← h2]
        refine ⟨rfl, rfl, ?_⟩
        intro p hp
        exact absurd hp (by simp)
      | some obj =>
        rw [hf] at heq
        simp only at heq
        cases hv : validateObj fuel graph obj "" ⟨[], []⟩ with
        | none =>
          rw [hv] at heq
          exact absurd heq (by simp)
        | some st =>
          rw [hv] at heq
          injection heq with h2
          have hAE : AllEmpty st :=
            validateObj_allEmpty fuel graph obj "" ⟨[], []⟩ st
              ⟨rfl, by intro p hp; exact absurd hp (by simp)⟩ hv
          rw [← h2]
          exact ⟨allEmpty_emptyCheck st hAE, hAE.1, hAE.2⟩

/-- A minimal well-formed packed workflow: a single `#main` tool. -/
def c10WfFx : WorkflowJSON :=
  ⟨some [[("id", CVal.str "#main"), ("class", CVal.str "CommandLineTool"),
          ("inputs", CVal.arr []), ("outputs", CVal.arr [])]], "v1.0"⟩

theorem validator_grievances_vacuous_witness :
    grievancesLog ["x"] "y" = ["x"]
    ∧ (grievancesLogCall ["x"] "y").2 = ["x", "y"]
    ∧ ((true, (⟨[], [("#main", [])]⟩ : WorkflowGrievances)).1 = true
       ∧ (true, (⟨[], [("#main", [])]⟩ : WorkflowGrievances)).2.main = []
       ∧ ∀ p ∈ (true, (⟨[], [("#main", [])]⟩ : WorkflowGrievances)).2.byProcess,
           p.2 = []) := by
  have heval : ValidateWorkflow c10WfFx 1 = some (true, ⟨[], [("#main", [])]⟩) := by
    simp [ValidateWorkflow, validateObj, c10WfFx, mget, mset, fieldCheck,
      WorkflowGrievances.emptyCheck]
  exact ⟨(validator_grievances_vacuous.1 ["x"] "y").1,
         (validator_grievances_vacuous.1 ["x"] "y").2,
         validator_grievances_vacuous.2 c10WfFx 1 (true, ⟨[], [("#main", [])]⟩)
           heval⟩

end Mariner
